import Mathlib

/-!
Verification of the freshsniper trading engine against its specification.

The definitions below are a shallow embedding of the TypeScript source:

* `createSellInstruction` / `createBuyInstruction` mirror the instruction
  builders in `src/unnamed/part_002` (lines 250-353) and the inline
  `buildBuyTx` / `buildSellTx` of the sniper variants in
  `src/ARCHITECTURE-REVIEW.md` (lines 960-1110 and 2950-3153).
* Buffers are lists of bytes (`List Nat`, each entry `< 256` by
  construction); `Buffer.alloc`, `copy` and `writeBigUInt64LE` are
  modelled as list splicing.
* Public keys are symbolic (`AccountKey`): the claims under study are
  about account ordering and payload layout, not about base58 values.
-/

namespace FreshSniper

/-- Little-endian 8-byte encoding of a natural number, as produced by
`Buffer.writeBigUInt64LE` (the JS call throws unless the value fits in
an unsigned 64-bit integer; byte `i` is `n / 256^i % 256`). -/
def toLE8 (n : Nat) : List Nat :=
  [n % 256, n / 256 % 256, n / 256 ^ 2 % 256, n / 256 ^ 3 % 256,
   n / 256 ^ 4 % 256, n / 256 ^ 5 % 256, n / 256 ^ 6 % 256, n / 256 ^ 7 % 256]

/-- Value denoted by a little-endian byte list (radix 256). -/
def leVal (bs : List Nat) : Nat :=
  bs.foldr (fun b acc => b % 256 + 256 * acc) 0

theorem leVal_toLE8 (n : Nat) : leVal (toLE8 n) = n % 2 ^ 64 := by
  simp only [toLE8, leVal, List.foldr]
  omega

/-- The symbolic accounts appearing in the pump.fun buy/sell instructions. -/
inductive AccountKey
  | pumpGlobal
  | pumpFeeRecipient
  | mint
  | bondingCurve
  | associatedBondingCurve
  | userTokenAccount
  | userSigner
  | systemProgram
  | tokenProgram
  | creatorVault
  | eventAuthority
  | pumpProgram
  | globalVolumeAccumulator
  | userVolumeAccumulator
  | feeConfig
  | feeProgram
  deriving DecidableEq

/-- One `{ pubkey, isSigner, isWritable }` entry of a TransactionInstruction. -/
structure AccountMeta where
  pubkey : AccountKey
  isSigner : Bool
  isWritable : Bool
  deriving DecidableEq

structure Instruction where
  keys : List AccountMeta
  data : List Nat
  deriving DecidableEq

/-- `DISCRIMINATORS.SELL` (ARCHITECTURE-REVIEW.md line 704). -/
def SELL_DISCRIMINATOR : List Nat := [0x33, 0xe6, 0x85, 0xa4, 0x01, 0x7f, 0x83, 0xad]

/-- `DISCRIMINATORS.BUY` (ARCHITECTURE-REVIEW.md line 703). -/
def BUY_DISCRIMINATOR : List Nat := [0x66, 0x06, 0x3d, 0x12, 0x01, 0xda, 0xeb, 0xea]

/-- `Buffer.alloc n` — a zero-filled byte buffer. -/
def bufferAlloc (n : Nat) : List Nat := List.replicate n 0

/-- `src.copy(dst, offset)` / writing `bytes` into `dst` at `offset`. -/
def bufferWrite (dst : List Nat) (offset : Nat) (bytes : List Nat) : List Nat :=
  dst.take offset ++ bytes ++ dst.drop (offset + bytes.length)

/-- `buf.writeBigUInt64LE(value, offset)`. -/
def writeBigUInt64LE (buf : List Nat) (value offset : Nat) : List Nat :=
  bufferWrite buf offset (toLE8 value)

/-- Sell instruction builder: mirrors `createSellInstruction`
(`src/unnamed/part_002` lines 309-353) and the instruction built inside
`buildSellTx` (ARCHITECTURE-REVIEW.md lines 3115-3148): 14 accounts with
`creator_vault` at index 8, directly before `token_program` at index 9,
and a 24-byte data buffer `discriminator ++ amount ++ min_sol_output`. -/
def createSellInstruction (tokenAmountRaw minSolOutput : Nat) : Instruction :=
  { keys :=
      [ ⟨.pumpGlobal, false, false⟩
      , ⟨.pumpFeeRecipient, false, true⟩
      , ⟨.mint, false, false⟩
      , ⟨.bondingCurve, false, true⟩
      , ⟨.associatedBondingCurve, false, true⟩
      , ⟨.userTokenAccount, false, true⟩
      , ⟨.userSigner, true, true⟩
      , ⟨.systemProgram, false, false⟩
      , ⟨.creatorVault, false, true⟩
      , ⟨.tokenProgram, false, false⟩
      , ⟨.eventAuthority, false, false⟩
      , ⟨.pumpProgram, false, false⟩
      , ⟨.feeConfig, false, false⟩
      , ⟨.feeProgram, false, false⟩ ]
    data :=
      writeBigUInt64LE
        (writeBigUInt64LE (bufferWrite (bufferAlloc 24) 0 SELL_DISCRIMINATOR)
          tokenAmountRaw 8)
        minSolOutput 16 }

/-- Buy instruction builder: mirrors `createBuyInstruction`
(`src/unnamed/part_002` lines 250-298) and the instruction built inside
`buildBuyTx` (ARCHITECTURE-REVIEW.md lines 1073-1108): 16 accounts with
`token_program` at index 8 directly before `creator_vault` at index 9. -/
def createBuyInstruction (tokenAmount maxSolCost : Nat) : Instruction :=
  { keys :=
      [ ⟨.pumpGlobal, false, false⟩
      , ⟨.pumpFeeRecipient, false, true⟩
      , ⟨.mint, false, false⟩
      , ⟨.bondingCurve, false, true⟩
      , ⟨.associatedBondingCurve, false, true⟩
      , ⟨.userTokenAccount, false, true⟩
      , ⟨.userSigner, true, true⟩
      , ⟨.systemProgram, false, false⟩
      , ⟨.tokenProgram, false, false⟩
      , ⟨.creatorVault, false, true⟩
      , ⟨.eventAuthority, false, false⟩
      , ⟨.pumpProgram, false, false⟩
      , ⟨.globalVolumeAccumulator, false, true⟩
      , ⟨.userVolumeAccumulator, false, true⟩
      , ⟨.feeConfig, false, false⟩
      , ⟨.feeProgram, false, false⟩ ]
    data :=
      writeBigUInt64LE
        (writeBigUInt64LE (bufferWrite (bufferAlloc 24) 0 BUY_DISCRIMINATOR)
          tokenAmount 8)
        maxSolCost 16 }

end FreshSniper

namespace FreshSniper

/-- Claim C1: the encoded sell instruction has exactly 14 accounts in the
fixed order of the spec, with the creator-vault account immediately before
the token-program account (reversed relative to buy, where the token
program comes immediately before the creator vault), and its data payload
is exactly 24 bytes — the 8-byte sell discriminator, then the token amount
as a little-endian u64, then the minimum-SOL-output as a little-endian
u64 — for every valid (u64-ranged) input to the sell builder. -/
theorem sell_instruction_layout (ta ms : Nat) (hta : ta < 2 ^ 64) (hms : ms < 2 ^ 64) :
    (createSellInstruction ta ms).keys.length = 14 ∧
    (createSellInstruction ta ms).keys.map AccountMeta.pubkey =
      [.pumpGlobal, .pumpFeeRecipient, .mint, .bondingCurve,
       .associatedBondingCurve, .userTokenAccount, .userSigner,
       .systemProgram, .creatorVault, .tokenProgram, .eventAuthority,
       .pumpProgram, .feeConfig, .feeProgram] ∧
    ((createSellInstruction ta ms).keys.map AccountMeta.pubkey).get? 8 =
      some .creatorVault ∧
    ((createSellInstruction ta ms).keys.map AccountMeta.pubkey).get? 9 =
      some .tokenProgram ∧
    ((createBuyInstruction ta ms).keys.map AccountMeta.pubkey).get? 8 =
      some .tokenProgram ∧
    ((createBuyInstruction ta ms).keys.map AccountMeta.pubkey).get? 9 =
      some .creatorVault ∧
    (createSellInstruction ta ms).data =
      SELL_DISCRIMINATOR ++ toLE8 ta ++ toLE8 ms ∧
    (createSellInstruction ta ms).data.length = 24 ∧
    leVal (toLE8 ta) = ta ∧ leVal (toLE8 ms) = ms := by
  refine ⟨rfl, rfl, rfl, rfl, rfl, rfl, rfl, rfl, ?_, ?_⟩
  · rw [leVal_toLE8]; exact Nat.mod_eq_of_lt hta
  · rw [leVal_toLE8]; exact Nat.mod_eq_of_lt hms

theorem sell_instruction_layout_witness :
    (createSellInstruction 1000000 42).data =
      SELL_DISCRIMINATOR ++ toLE8 1000000 ++ toLE8 42 ∧
    (createSellInstruction 1000000 42).keys.length = 14 :=
  ⟨(sell_instruction_layout 1000000 42 (by decide) (by decide)).2.2.2.2.2.2.1,
   (sell_instruction_layout 1000000 42 (by decide) (by decide)).1⟩

/-!
Fee budget guard — `enforceFeeBudget` and `promptHighFeeConfirmation`
(ARCHITECTURE-REVIEW.md lines 2236-2323).  Lamport amounts are integers;
the fee ratio is modelled exactly in `ℚ` (the JS division of two integral
lamport counts).  `log` calls are irrelevant to control flow and dropped;
a thrown `Error` is modelled as a rejecting result value.
-/

/-- State of the `AUTO_CONFIRM_HIGH_FEES` environment variable after
trimming and lowercasing. -/
inductive AutoConfirmEnv
  | envTrue
  | envFalse
  | envUnset
  deriving DecidableEq

/-- Ambient context consulted by `promptHighFeeConfirmation`: the override
environment variable, whether stdin/stdout are TTYs, and the answer an
interactive user would give at the readline prompt. -/
structure FeeContext where
  autoConfirmHighFees : AutoConfirmEnv
  interactive : Bool
  promptAnswerYes : Bool
  deriving DecidableEq

/-- `promptHighFeeConfirmation` (lines 2236-2278): `AUTO_CONFIRM_HIGH_FEES=true`
auto-confirms, `=false` refuses, otherwise a non-interactive environment
refuses and an interactive one asks the user. -/
def promptHighFeeConfirmation (ctx : FeeContext) : Bool :=
  match ctx.autoConfirmHighFees with
  | .envTrue => true
  | .envFalse => false
  | .envUnset => if !ctx.interactive then false else ctx.promptAnswerYes

/-- Outcome of `enforceFeeBudget`: normal return (silent, after a warning
log, or after a granted confirmation) or one of its two thrown errors. -/
inductive FeeBudgetResult
  | allowedSilently
  | allowedWithWarning
  | allowedAfterConfirmation
  | rejectedByConfirmation
  | rejectedFatalAbove10Percent
  deriving DecidableEq

/-- `enforceFeeBudget` (lines 2280-2323), with the exact branch order of the
source: clamp the value at zero, return when the total is non-positive,
return silently at ratio ≤ 2%, throw at ratio ≥ 10%, require confirmation
at ratio > 5%, and otherwise warn and return. -/
def enforceFeeBudget (ctx : FeeContext) (valueLamports feeLamports : ℤ) :
    FeeBudgetResult :=
  let spendLamports := max valueLamports 0
  let totalLamports := spendLamports + feeLamports
  if totalLamports ≤ 0 then .allowedSilently
  else
    let ratio : ℚ := (feeLamports : ℚ) / (totalLamports : ℚ)
    if ratio ≤ 2 / 100 then .allowedSilently
    else if ratio ≥ 1 / 10 then .rejectedFatalAbove10Percent
    else if ratio > 5 / 100 then
      if promptHighFeeConfirmation ctx then .allowedAfterConfirmation
      else .rejectedByConfirmation
    else .allowedWithWarning

/-- The exact fee ratio computed by the guard. -/
def feeRatio (valueLamports feeLamports : ℤ) : ℚ :=
  (feeLamports : ℚ) / ((max valueLamports 0 + feeLamports : ℤ) : ℚ)

theorem enforceFeeBudget_of_pos (ctx : FeeContext) (v f : ℤ)
    (hne : ¬ (max v 0 + f ≤ 0)) :
    enforceFeeBudget ctx v f =
      if feeRatio v f ≤ 2 / 100 then .allowedSilently
      else if feeRatio v f ≥ 1 / 10 then .rejectedFatalAbove10Percent
      else if feeRatio v f > 5 / 100 then
        if promptHighFeeConfirmation ctx then .allowedAfterConfirmation
        else .rejectedByConfirmation
      else .allowedWithWarning := by
  unfold enforceFeeBudget feeRatio
  rw [if_neg hne]

end FreshSniper

namespace FreshSniper

/-- Claim C4: with a positive lamport total, the fee budget guard is a total
function of `feeRatio = fee / (max(value,0) + fee)`: at or below 2% it
allows the submission silently; above 2% and at most 5% it allows it with a
warning only; above 5% and below 10% it requires confirmation, which in a
non-interactive context is granted exactly when the override variable is
`true` and otherwise blocks; at or above 10% it always rejects fatally.
In particular a 3% ratio warns only, a 7% ratio blocks in a non-interactive
context without the override and passes with it, and a 12% ratio always
rejects. -/
theorem fee_budget_guard_cases (ctx : FeeContext) (v f : ℤ)
    (hpos : 0 < max v 0 + f) :
    (feeRatio v f ≤ 2 / 100 →
      enforceFeeBudget ctx v f = .allowedSilently) ∧
    (2 / 100 < feeRatio v f → feeRatio v f ≤ 5 / 100 →
      enforceFeeBudget ctx v f = .allowedWithWarning) ∧
    (5 / 100 < feeRatio v f → feeRatio v f < 1 / 10 →
      (ctx.interactive = false → ctx.autoConfirmHighFees ≠ .envTrue →
        enforceFeeBudget ctx v f = .rejectedByConfirmation) ∧
      (ctx.autoConfirmHighFees = .envTrue →
        enforceFeeBudget ctx v f = .allowedAfterConfirmation) ∧
      (enforceFeeBudget ctx v f = .allowedAfterConfirmation ↔
        promptHighFeeConfirmation ctx = true)) ∧
    (1 / 10 ≤ feeRatio v f →
      enforceFeeBudget ctx v f = .rejectedFatalAbove10Percent) := by
  have hne : ¬ (max v 0 + f ≤ 0) := not_le.mpr hpos
  rw [enforceFeeBudget_of_pos ctx v f hne]
  constructor
  · intro h02
    rw [if_pos h02]
  constructor
  · intro h2 h5
    have h10 : ¬ ((feeRatio v f) ≥ 1 / 10) := by
      intro hge
      have h : (5 : ℚ) / 100 < 1 / 10 := by norm_num
      linarith
    rw [if_neg (not_le.mpr h2), if_neg h10, if_neg (not_lt.mpr h5)]
  constructor
  · intro h5 h10
    have h2 : ¬ (feeRatio v f ≤ 2 / 100) := by
      intro hle
      have h : (2 : ℚ) / 100 < 5 / 100 := by norm_num
      linarith
    have h10' : ¬ ((feeRatio v f) ≥ 1 / 10) := not_le.mpr h10
    rw [if_neg h2, if_neg h10', if_pos h5]
    refine ⟨?_, ?_, ?_⟩
    · intro hni henv
      have hconf : promptHighFeeConfirmation ctx = false := by
        cases hca : ctx.autoConfirmHighFees with
        | envTrue => exact absurd hca henv
        | envFalse => simp [promptHighFeeConfirmation, hca]
        | envUnset => simp [promptHighFeeConfirmation, hca, hni]
      rw [hconf]
      simp
    · intro henv
      have hconf : promptHighFeeConfirmation ctx = true := by
        simp [promptHighFeeConfirmation, henv]
      rw [hconf]
      simp
    · cases hconf : promptHighFeeConfirmation ctx <;> simp [hconf]
  · intro h10
    have h2 : ¬ ((feeRatio v f) ≤ 2 / 100) := by
      intro hle
      have h : (2 : ℚ) / 100 < 1 / 10 := by norm_num
      linarith
    rw [if_neg h2, if_pos h10]

theorem fee_budget_guard_cases_witness :
    enforceFeeBudget ⟨.envUnset, false, false⟩ 97 3 = .allowedWithWarning ∧
    enforceFeeBudget ⟨.envUnset, false, false⟩ 93 7 = .rejectedByConfirmation ∧
    enforceFeeBudget ⟨.envTrue, false, false⟩ 93 7 = .allowedAfterConfirmation ∧
    enforceFeeBudget ⟨.envUnset, false, false⟩ 88 12 = .rejectedFatalAbove10Percent := by
  refine ⟨?_, ?_, ?_, ?_⟩
  · exact (fee_budget_guard_cases ⟨.envUnset, false, false⟩ 97 3 (by norm_num)).2.1
      (by norm_num [feeRatio]) (by norm_num [feeRatio])
  · exact ((fee_budget_guard_cases ⟨.envUnset, false, false⟩ 93 7 (by norm_num)).2.2.1
      (by norm_num [feeRatio]) (by norm_num [feeRatio])).1 rfl (by decide)
  · exact ((fee_budget_guard_cases ⟨.envTrue, false, false⟩ 93 7 (by norm_num)).2.2.1
      (by norm_num [feeRatio]) (by norm_num [feeRatio])).2.1 rfl
  · exact (fee_budget_guard_cases ⟨.envUnset, false, false⟩ 88 12 (by norm_num)).2.2.2
      (by norm_num [feeRatio])

/-- Claim C10: the fee budget guard is total at its boundary inputs — when
`max(value, 0) + fee ≤ 0` it returns normally without computing the ratio
(no division by zero, submission permitted), and when `value ≤ 0` with
`fee > 0` the ratio is exactly 1, so the guard rejects with the fatal
above-10% error. -/
theorem fee_budget_guard_boundary (ctx : FeeContext) (v f : ℤ) :
    (max v 0 + f ≤ 0 → enforceFeeBudget ctx v f = .allowedSilently) ∧
    (v ≤ 0 → 0 < f →
      feeRatio v f = 1 ∧
      enforceFeeBudget ctx v f = .rejectedFatalAbove10Percent) := by
  constructor
  · intro hle
    simp only [enforceFeeBudget]
    rw [if_pos hle]
  · intro hv hf
    have hmax : max v 0 = 0 := max_eq_right hv
    have hratio : feeRatio v f = 1 := by
      simp only [feeRatio, hmax, zero_add]
      rw [div_self]
      exact_mod_cast hf.ne.symm
    refine ⟨hratio, ?_⟩
    have hpos : 0 < max v 0 + f := by omega
    exact (fee_budget_guard_cases ctx v f hpos).2.2.2 (by rw [hratio]; norm_num)

theorem fee_budget_guard_boundary_witness :
    enforceFeeBudget ⟨.envTrue, true, true⟩ (-5) 0 = .allowedSilently ∧
    enforceFeeBudget ⟨.envTrue, true, true⟩ (-5) 9 = .rejectedFatalAbove10Percent :=
  ⟨(fee_budget_guard_boundary ⟨.envTrue, true, true⟩ (-5) 0).1 (by norm_num),
   ((fee_budget_guard_boundary ⟨.envTrue, true, true⟩ (-5) 9).2 (by norm_num)
      (by norm_num)).2⟩

end FreshSniper

namespace FreshSniper

/-!
Circuit breaker — `tripCircuitBreaker`, `recordSuccess`,
`checkCircuitBreaker` and the auto-reset timer callback
(ARCHITECTURE-REVIEW.md lines 2662-2701).  Timer scheduling is modelled by
a flag; the timer callback body is `circuitBreakerAutoReset`.
-/

structure CircuitBreakerState where
  isOpen : Bool
  consecutiveFailures : Nat
  lastFailureTime : ℤ
  hasResetTimer : Bool
  deriving DecidableEq

/-- `tripCircuitBreaker` (lines 2662-2681): open the breaker, bump the
consecutive-failure counter, stamp the failure time and (re)schedule the
auto-reset timer. -/
def tripCircuitBreaker (now : ℤ) (s : CircuitBreakerState) : CircuitBreakerState :=
  { isOpen := true
    consecutiveFailures := s.consecutiveFailures + 1
    lastFailureTime := now
    hasResetTimer := true }

/-- Body of the auto-reset `setTimeout` callback (lines 2676-2680): close
the breaker and zero the counter unconditionally. -/
def circuitBreakerAutoReset (s : CircuitBreakerState) : CircuitBreakerState :=
  { s with isOpen := false, consecutiveFailures := 0, hasResetTimer := false }

/-- `recordSuccess` (lines 2683-2689): zero the counter; if the breaker is
open, close it. -/
def recordSuccess (s : CircuitBreakerState) : CircuitBreakerState :=
  { s with
    consecutiveFailures := 0
    isOpen := if s.isOpen then false else s.isOpen }

/-- `checkCircuitBreaker` (lines 2691-2701): admission passes iff closed. -/
def checkCircuitBreaker (s : CircuitBreakerState) : Bool :=
  !s.isOpen

end FreshSniper

namespace FreshSniper

/-- Claim C6 counterexample: starting from a freshly tripped (open) breaker,
a single `recordSuccess` closes it — so a recorded success that arrives
while the breaker is open does transition it back to closed, not only the
auto-reset timer. -/
theorem recordSuccess_closes_open_breaker :
    (tripCircuitBreaker 0 ⟨false, 4, 0, false⟩).isOpen = true ∧
    (recordSuccess (tripCircuitBreaker 0 ⟨false, 4, 0, false⟩)).isOpen = false ∧
    (recordSuccess (tripCircuitBreaker 0 ⟨false, 4, 0, false⟩)).hasResetTimer = true := by
  decide

/-- Claim C6 as amended: the consecutive-failure counter is reset to zero on
any recorded success, and an open breaker is closed either by its auto-reset
timer or immediately by a recorded success arriving while it is open (the
source closes it in both places; the pending timer is not cancelled by the
success path). -/
theorem circuit_breaker_success_and_reset (s : CircuitBreakerState) :
    (recordSuccess s).consecutiveFailures = 0 ∧
    (recordSuccess s).isOpen = false ∧
    (circuitBreakerAutoReset s).isOpen = false ∧
    (circuitBreakerAutoReset s).consecutiveFailures = 0 ∧
    (recordSuccess s).hasResetTimer = s.hasResetTimer := by
  refine ⟨rfl, ?_, rfl, rfl, rfl⟩
  cases h : s.isOpen <;> simp [recordSuccess, h]

/-!
Blockhash caches — variant A's `getValidBlockhash`
(ARCHITECTURE-REVIEW.md lines 707-722) and variant B's
`getCachedBlockhash` (lines 2831-2842), together with their consumers:
variant A's `executeSell` refuses to build a sell without a valid
blockhash (lines 1384-1389), and variant B's `executeSellWithRetry`
proceeds whenever the cache is merely non-empty (lines 3380-3385).
Hashes are symbolic (`Nat`); `Date.now()` is an explicit `now` argument.
-/

def BLOCKHASH_STALE_THRESHOLD_MS : ℤ := 30000

structure BlockhashEntry where
  hash : Nat
  receivedAt : ℤ
  deriving DecidableEq

/-- Variant A `getValidBlockhash` (lines 712-722): `null` when there is no
entry or it is older than the 30s staleness threshold. -/
def getValidBlockhash (latest : Option BlockhashEntry) (now : ℤ) : Option Nat :=
  match latest with
  | none => none
  | some e => if now - e.receivedAt > BLOCKHASH_STALE_THRESHOLD_MS then none else some e.hash

structure CachedBlockhash where
  blockhash : Nat
  lastValidBlockHeight : Nat
  timestamp : ℤ
  deriving DecidableEq

/-- Variant B `getCachedBlockhash` (lines 2831-2842): `null` only when the
cache is empty; when the entry is older than 2000 ms it logs a staleness
warning but still returns the cached value. -/
def getCachedBlockhash (cache : Option CachedBlockhash) (now : ℤ) : Option Nat :=
  match cache with
  | none => none
  | some c => some c.blockhash

/-- Age threshold mentioned in variant B's staleness warning (line 2837). -/
def CACHED_BLOCKHASH_WARN_AGE_MS : ℤ := 2000

/-- Variant A sell path consumer (lines 1384-1389): builds only with a
valid blockhash. -/
def executeSellBuildsVariantA (latest : Option BlockhashEntry) (now : ℤ) : Bool :=
  (getValidBlockhash latest now).isSome

/-- Variant B sell path consumer (lines 3380-3385): builds whenever the
cache returns anything. -/
def executeSellBuildsVariantB (cache : Option CachedBlockhash) (now : ℤ) : Bool :=
  (getCachedBlockhash cache now).isSome

end FreshSniper

namespace FreshSniper

/-- Claim C9 counterexample: a cached blockhash 5000 ms old — past the 2000
ms staleness threshold of `getCachedBlockhash` — is still returned by the
cache accessor, and the sell path consumer proceeds to build and submit
with it, so not every consumer treats a stale value as unusable. -/
theorem stale_blockhash_used_counterexample :
    (5000 : ℤ) - (0 : ℤ) > CACHED_BLOCKHASH_WARN_AGE_MS ∧
    getCachedBlockhash (some ⟨77, 0, 0⟩) 5000 = some 77 ∧
    executeSellBuildsVariantB (some ⟨77, 0, 0⟩) 5000 = true := by
  decide

/-- Claim C9 as amended: variant A's `getValidBlockhash` never yields a
value older than its 30s threshold — its consumer refuses to build until a
fresh value arrives — while variant B's `getCachedBlockhash` refuses only
an empty cache and returns values past its 2s warning threshold, so its
consumers do build on values past that threshold. -/
theorem blockhash_staleness_policy (latest : Option BlockhashEntry)
    (cache : Option CachedBlockhash) (now : ℤ) :
    (∀ e, latest = some e → now - e.receivedAt > BLOCKHASH_STALE_THRESHOLD_MS →
      getValidBlockhash latest now = none ∧
      executeSellBuildsVariantA latest now = false) ∧
    (∀ h, getValidBlockhash latest now = some h →
      ∃ e, latest = some e ∧ h = e.hash ∧
        now - e.receivedAt ≤ BLOCKHASH_STALE_THRESHOLD_MS) ∧
    (∀ c, cache = some c → getCachedBlockhash cache now = some c.blockhash) := by
  refine ⟨?_, ?_, ?_⟩
  · rintro e rfl hstale
    constructor
    · simp [getValidBlockhash, hstale]
    · simp [executeSellBuildsVariantA, getValidBlockhash, hstale]
  · intro h hsome
    cases hl : latest with
    | none => rw [hl] at hsome; simp [getValidBlockhash] at hsome
    | some e =>
      rw [hl] at hsome
      by_cases hage : now - e.receivedAt > BLOCKHASH_STALE_THRESHOLD_MS
      · simp [getValidBlockhash, hage] at hsome
      · refine ⟨e, rfl, ?_, not_lt.mp hage⟩
        simp [getValidBlockhash, hage] at hsome
        exact hsome.symm
  · rintro c rfl
    rfl

theorem blockhash_staleness_policy_witness :
    getValidBlockhash (some ⟨77, 0⟩) 40000 = none ∧
    executeSellBuildsVariantA (some ⟨77, 0⟩) 40000 = false ∧
    getCachedBlockhash (some ⟨77, 0, 0⟩) 40000 = some 77 :=
  ⟨((blockhash_staleness_policy (some ⟨77, 0⟩) (some ⟨77, 0, 0⟩) 40000).1
      ⟨77, 0⟩ rfl (by decide)).1,
   ((blockhash_staleness_policy (some ⟨77, 0⟩) (some ⟨77, 0, 0⟩) 40000).1
      ⟨77, 0⟩ rfl (by decide)).2,
   (blockhash_staleness_policy (some ⟨77, 0⟩) (some ⟨77, 0, 0⟩) 40000).2.2
      ⟨77, 0, 0⟩ rfl⟩

end FreshSniper

namespace FreshSniper

/-!
Sell retry loop — `executeSellWithRetry`
(ARCHITECTURE-REVIEW.md lines 3331-3826).  The network is abstracted as a
map from attempt number to that attempt's outcome:

* `preflightFailure` — missing ATA, too-short ATA data, zero balance, or
  missing blockhash (lines 3363-3385): return `false`, no retry;
* `sendFailure` — both send channels threw (lines 3537-3566): retry with
  `attempt * 2000` ms backoff, or trip the breaker when out of attempts;
* `statusPending` — no status after the 8 s wait (lines 3586-3593):
  return `false`, no retry, no trip;
* `unknownStatus` — a status with neither error nor confirmation
  (lines 3761-3764): return `false`;
* `onChainRejection code` — `status.value.err` (lines 3595-3632): retry
  with `attempt * 3000` ms backoff only for retryable codes, else trip;
* `confirmationError` — exception while polling status
  (lines 3765-3794): retry with `attempt * 2000` ms backoff, no trip on
  exhaustion;
* `thrownException` — the outer catch (lines 3795-3820): retry with
  `attempt * 2000` ms backoff, trip on exhaustion;
* `confirmedSuccess` — confirmed sell (lines 3633-3760).
-/

inductive SellAttemptOutcome
  | preflightFailure
  | sendFailure
  | statusPending
  | unknownStatus
  | onChainRejection (code : Nat)
  | confirmationError
  | thrownException
  | confirmedSuccess
  deriving DecidableEq

/-- Retryable on-chain rejection codes (lines 3602-3606): custom errors
6003 and 6001 (and messages mentioning slippage, subsumed here by their
codes). -/
def retryableSellError (code : Nat) : Bool :=
  code == 6003 || code == 6001

/-- Progressive slippage multiplier (lines 3398-3403):
`attemptNumber === 1 ? 0.98 : attemptNumber === 2 ? 0.95 : 0.9`. -/
def slippageMultiplierFor (attemptNumber : Nat) : ℚ :=
  if attemptNumber == 1 then 98 / 100
  else if attemptNumber == 2 then 95 / 100
  else 9 / 10

structure SellAttemptRecord where
  attemptNumber : Nat
  slippageMultiplier : ℚ
  backoffAfterMs : Option Nat
  outcome : SellAttemptOutcome

structure SellRunResult where
  attempts : List SellAttemptRecord
  success : Bool
  circuitBreakerTripped : Bool

/-- The recursion of `executeSellWithRetry`, indexed by the number of
retries still allowed (`remaining = maxAttempts - attemptNumber`); the
source recurses with `attemptNumber + 1` exactly while
`attemptNumber < maxAttempts`. -/
def sellRetryGo (outcome : Nat → SellAttemptOutcome) (maxAttempts : Nat) :
    Nat → SellRunResult
  | 0 =>
    let n := maxAttempts
    let m := slippageMultiplierFor n
    match outcome n with
    | .preflightFailure => ⟨[⟨n, m, none, .preflightFailure⟩], false, false⟩
    | .sendFailure => ⟨[⟨n, m, none, .sendFailure⟩], false, true⟩
    | .statusPending => ⟨[⟨n, m, none, .statusPending⟩], false, false⟩
    | .unknownStatus => ⟨[⟨n, m, none, .unknownStatus⟩], false, false⟩
    | .onChainRejection code => ⟨[⟨n, m, none, .onChainRejection code⟩], false, true⟩
    | .confirmationError => ⟨[⟨n, m, none, .confirmationError⟩], false, false⟩
    | .thrownException => ⟨[⟨n, m, none, .thrownException⟩], false, true⟩
    | .confirmedSuccess => ⟨[⟨n, m, none, .confirmedSuccess⟩], true, false⟩
  | rem + 1 =>
    let n := maxAttempts - (rem + 1)
    let m := slippageMultiplierFor n
    let rest := sellRetryGo outcome maxAttempts rem
    match outcome n with
    | .preflightFailure => ⟨[⟨n, m, none, .preflightFailure⟩], false, false⟩
    | .sendFailure =>
      ⟨⟨n, m, some (n * 2000), .sendFailure⟩ :: rest.attempts,
        rest.success, rest.circuitBreakerTripped⟩
    | .statusPending => ⟨[⟨n, m, none, .statusPending⟩], false, false⟩
    | .unknownStatus => ⟨[⟨n, m, none, .unknownStatus⟩], false, false⟩
    | .onChainRejection code =>
      if retryableSellError code then
        ⟨⟨n, m, some (n * 3000), .onChainRejection code⟩ :: rest.attempts,
          rest.success, rest.circuitBreakerTripped⟩
      else ⟨[⟨n, m, none, .onChainRejection code⟩], false, true⟩
    | .confirmationError =>
      ⟨⟨n, m, some (n * 2000), .confirmationError⟩ :: rest.attempts,
        rest.success, rest.circuitBreakerTripped⟩
    | .thrownException =>
      ⟨⟨n, m, some (n * 2000), .thrownException⟩ :: rest.attempts,
        rest.success, rest.circuitBreakerTripped⟩
    | .confirmedSuccess => ⟨[⟨n, m, none, .confirmedSuccess⟩], true, false⟩

/-- `executeSellWithRetry(..., attemptNumber = 1, maxAttempts = 3)`. -/
def executeSellWithRetryModel (outcome : Nat → SellAttemptOutcome) : SellRunResult :=
  sellRetryGo outcome 3 2

theorem sellRetryGo_ne_nil (o : Nat → SellAttemptOutcome) (m rem : Nat) :
    (sellRetryGo o m rem).attempts ≠ [] := by
  cases rem with
  | zero => cases h : o m <;> simp [sellRetryGo, h]
  | succ rem =>
    cases h : o (m - (rem + 1)) <;> simp only [sellRetryGo, h]
    case onChainRejection code => split <;> simp
    all_goals simp

theorem sellRetryGo_length (o : Nat → SellAttemptOutcome) (m : Nat) :
    ∀ rem, (sellRetryGo o m rem).attempts.length ≤ rem + 1 := by
  intro rem
  induction rem with
  | zero => cases h : o m <;> simp [sellRetryGo, h]
  | succ rem ih =>
    cases h : o (m - (rem + 1)) <;> simp only [sellRetryGo, h]
    case onChainRejection code =>
      split
      · simp only [List.length_cons]; omega
      · simp
    case sendFailure | confirmationError | thrownException =>
      simp only [List.length_cons]; omega
    all_goals simp

theorem sellRetryGo_mult (o : Nat → SellAttemptOutcome) (m : Nat) :
    ∀ rem, ∀ a ∈ (sellRetryGo o m rem).attempts,
      a.slippageMultiplier = slippageMultiplierFor a.attemptNumber := by
  intro rem
  induction rem with
  | zero =>
    intro a ha
    cases h : o m <;> simp [sellRetryGo, h] at ha <;> subst ha <;> rfl
  | succ rem ih =>
    intro a ha
    cases h : o (m - (rem + 1)) <;> simp only [sellRetryGo, h] at ha
    case preflightFailure | statusPending | unknownStatus | confirmedSuccess =>
      simp at ha; subst ha; rfl
    case sendFailure | confirmationError | thrownException =>
      simp at ha
      rcases ha with rfl | ha
      · rfl
      · exact ih a ha
    case onChainRejection code =>
      by_cases hc : retryableSellError code
      · rw [if_pos hc] at ha
        simp at ha
        rcases ha with rfl | ha
        · rfl
        · exact ih a ha
      · rw [if_neg hc] at ha
        simp at ha; subst ha; rfl

end FreshSniper

namespace FreshSniper

theorem sellRetryGo_backoff (o : Nat → SellAttemptOutcome) (m : Nat) :
    ∀ rem, ∀ a ∈ (sellRetryGo o m rem).attempts, ∀ b, a.backoffAfterMs = some b →
      ((a.outcome = .sendFailure ∨ a.outcome = .confirmationError ∨
          a.outcome = .thrownException) ∧ b = a.attemptNumber * 2000) ∨
      (∃ c, a.outcome = .onChainRejection c ∧ retryableSellError c = true ∧
          b = a.attemptNumber * 3000) := by
  intro rem
  induction rem with
  | zero =>
    intro a ha b hb
    cases h : o m <;> simp [sellRetryGo, h] at ha <;> subst ha <;> simp at hb
  | succ rem ih =>
    intro a ha b hb
    cases h : o (m - (rem + 1)) <;> simp only [sellRetryGo, h] at ha
    case preflightFailure | statusPending | unknownStatus | confirmedSuccess =>
      simp at ha; subst ha; simp at hb
    case sendFailure =>
      simp at ha
      rcases ha with rfl | ha
      · simp at hb; subst hb; exact Or.inl ⟨Or.inl rfl, rfl⟩
      · exact ih a ha b hb
    case confirmationError =>
      simp at ha
      rcases ha with rfl | ha
      · simp at hb; subst hb; exact Or.inl ⟨Or.inr (Or.inl rfl), rfl⟩
      · exact ih a ha b hb
    case thrownException =>
      simp at ha
      rcases ha with rfl | ha
      · simp at hb; subst hb; exact Or.inl ⟨Or.inr (Or.inr rfl), rfl⟩
      · exact ih a ha b hb
    case onChainRejection code =>
      by_cases hc : retryableSellError code
      · rw [if_pos hc] at ha
        simp at ha
        rcases ha with rfl | ha
        · simp at hb; subst hb; exact Or.inr ⟨code, rfl, hc, rfl⟩
        · exact ih a ha b hb
      · rw [if_neg hc] at ha
        simp at ha; subst ha; simp at hb

theorem sellRetryGo_nonretryable (o : Nat → SellAttemptOutcome) (m : Nat) :
    ∀ rem, ∀ a ∈ (sellRetryGo o m rem).attempts, ∀ c,
      a.outcome = .onChainRejection c → retryableSellError c = false →
      a.backoffAfterMs = none ∧ (sellRetryGo o m rem).circuitBreakerTripped = true := by
  intro rem
  induction rem with
  | zero =>
    intro a ha c hc hret
    cases h : o m <;> simp [sellRetryGo, h] at ha ⊢ <;> subst ha <;>
      simp at hc ⊢
  | succ rem ih =>
    intro a ha c hc hret
    cases h : o (m - (rem + 1)) <;> simp only [sellRetryGo, h] at ha ⊢
    case preflightFailure | statusPending | unknownStatus | confirmedSuccess =>
      simp at ha; subst ha; simp at hc
    case sendFailure | confirmationError | thrownException =>
      simp at ha ⊢
      rcases ha with rfl | ha
      · simp at hc
      · exact ih a ha c hc hret
    case onChainRejection code =>
      by_cases hcode : retryableSellError code
      · rw [if_pos hcode] at ha ⊢
        simp at ha ⊢
        rcases ha with rfl | ha
        · simp at hc; subst hc; rw [hcode] at hret; cases hret
        · exact ih a ha c hc hret
      · rw [if_neg hcode] at ha ⊢
        simp at ha; subst ha
        exact ⟨rfl, rfl⟩

theorem sellRetryGo_attemptNumbers (o : Nat → SellAttemptOutcome) (m : Nat) :
    ∀ rem, rem + 1 ≤ m →
      (sellRetryGo o m rem).attempts.map (fun a => a.attemptNumber) =
        List.range' (m - rem) (sellRetryGo o m rem).attempts.length := by
  intro rem
  induction rem with
  | zero =>
    intro hm
    cases h : o m <;> simp [sellRetryGo, h]
  | succ rem ih =>
    intro hm
    have hrec := ih (by omega)
    have harith : m - rem = (m - (rem + 1)) + 1 := by omega
    cases h : o (m - (rem + 1)) <;> simp only [sellRetryGo, h]
    case preflightFailure | statusPending | unknownStatus | confirmedSuccess =>
      simp
    case sendFailure | confirmationError | thrownException =>
      simp only [List.map_cons, List.length_cons, List.range'_succ, hrec, harith]
    case onChainRejection code =>
      split
      · simp only [List.map_cons, List.length_cons, List.range'_succ, hrec, harith]
      · simp

theorem sellRetryGo_head_number (o : Nat → SellAttemptOutcome) (m rem : Nat) :
    ((sellRetryGo o m rem).attempts.head?).map (fun a => a.attemptNumber) =
      some (m - rem) := by
  cases rem with
  | zero => cases h : o m <;> simp [sellRetryGo, h]
  | succ rem =>
    cases h : o (m - (rem + 1)) <;> simp only [sellRetryGo, h]
    case onChainRejection code => split <;> simp
    all_goals simp

theorem slippageMultiplierFor_antitone (n : Nat) (h : 1 ≤ n) :
    slippageMultiplierFor (n + 1) ≤ slippageMultiplierFor n := by
  match n, h with
  | 1, _ => norm_num [slippageMultiplierFor]
  | 2, _ => norm_num [slippageMultiplierFor]
  | (k + 3), _ =>
    have h1 : (k + 3 + 1 == 1) = false := by simp
    have h2 : (k + 3 + 1 == 2) = false := by simp
    have h3 : (k + 3 == 1) = false := by simp
    have h4 : (k + 3 == 2) = false := by simp
    simp only [slippageMultiplierFor, h1, h2, h3, h4, if_false, Bool.false_eq_true]
    norm_num

theorem sellRetryGo_chain (o : Nat → SellAttemptOutcome) (m : Nat) :
    ∀ rem, rem + 1 ≤ m →
      List.Chain' (fun x y => y.slippageMultiplier ≤ x.slippageMultiplier)
        (sellRetryGo o m rem).attempts := by
  intro rem
  induction rem with
  | zero =>
    intro hm
    cases h : o m <;> simp [sellRetryGo, h]
  | succ rem ih =>
    intro hm
    have hrec := ih (by omega)
    have hhead := sellRetryGo_head_number o m rem
    have hone : 1 ≤ m - (rem + 1) := by omega
    have harith : m - rem = (m - (rem + 1)) + 1 := by omega
    cases h : o (m - (rem + 1)) <;> simp only [sellRetryGo, h]
    case preflightFailure | statusPending | unknownStatus | confirmedSuccess =>
      simp
    case sendFailure | confirmationError | thrownException =>
      refine List.chain'_cons'.mpr ⟨?_, hrec⟩
      intro y hy
      have hynum : y.attemptNumber = m - rem := by
        rw [hy] at hhead
        simpa using hhead
      have hymult := sellRetryGo_mult o m rem y (List.mem_of_mem_head? hy)
      rw [hymult, hynum, harith]
      exact slippageMultiplierFor_antitone _ hone
    case onChainRejection code =>
      split
      · refine List.chain'_cons'.mpr ⟨?_, hrec⟩
        intro y hy
        have hynum : y.attemptNumber = m - rem := by
          rw [hy] at hhead
          simpa using hhead
        have hymult := sellRetryGo_mult o m rem y (List.mem_of_mem_head? hy)
        rw [hymult, hynum, harith]
        exact slippageMultiplierFor_antitone _ hone
      · simp

theorem getLast?_cons_of_ne_nil {α : Type} (x : α) (l : List α) (h : l ≠ []) :
    (x :: l).getLast? = l.getLast? := by
  cases l with
  | nil => exact absurd rfl h
  | cons y ys => exact List.getLast?_cons_cons

theorem sellRetryGo_exhaust (o : Nat → SellAttemptOutcome) (m : Nat) :
    ∀ rem, rem + 1 ≤ m → ∀ a,
      (sellRetryGo o m rem).attempts.getLast? = some a →
      a.attemptNumber = m →
      (a.outcome = .sendFailure ∨ (∃ c, a.outcome = .onChainRejection c) ∨
        a.outcome = .thrownException) →
      (sellRetryGo o m rem).circuitBreakerTripped = true := by
  intro rem
  induction rem with
  | zero =>
    intro hm a hlast hnum hout
    cases h : o m <;> simp only [sellRetryGo, h] at hlast ⊢ <;>
      simp at hlast <;> subst hlast <;>
      first
        | rfl
        | simp at hout
  | succ rem ih =>
    intro hm a hlast hnum hout
    have hne := sellRetryGo_ne_nil o m rem
    have hlt : m - (rem + 1) < m := by omega
    cases h : o (m - (rem + 1)) <;> simp only [sellRetryGo, h] at hlast ⊢
    case preflightFailure | statusPending | unknownStatus | confirmedSuccess =>
      simp at hlast; subst hlast; simp at hout
    case sendFailure | confirmationError | thrownException =>
      rw [getLast?_cons_of_ne_nil _ _ hne] at hlast
      exact ih (by omega) a hlast hnum hout
    case onChainRejection code =>
      by_cases hcode : retryableSellError code
      · rw [if_pos hcode] at hlast ⊢
        simp only at hlast ⊢
        rw [getLast?_cons_of_ne_nil _ _ hne] at hlast
        exact ih (by omega) a hlast hnum hout
      · rw [if_neg hcode] at hlast ⊢

end FreshSniper

namespace FreshSniper

/-- Claim C3: a failed sell is retried at most 3 attempts total, numbered
consecutively from 1; the slippage multiplier applied to the estimated
proceeds is 0.98 on attempt 1, 0.95 on attempt 2 and 0.90 on attempt 3,
hence non-increasing across attempts; the backoff before a retry is
`attemptNumber × 2` seconds after a send failure (as after a confirmation
error or a thrown exception) and `attemptNumber × 3` seconds after a
retryable on-chain rejection; an on-chain rejection leads to a retry only
when its error code is retryable — a non-retryable rejection stops
immediately and trips the circuit breaker — and exhausting the retries on
a send failure, an on-chain rejection or an exception trips the circuit
breaker. -/
theorem sell_retry_policy (outcome : Nat → SellAttemptOutcome) :
    (executeSellWithRetryModel outcome).attempts.length ≤ 3 ∧
    (executeSellWithRetryModel outcome).attempts.map (fun a => a.attemptNumber) =
      List.range' 1 (executeSellWithRetryModel outcome).attempts.length ∧
    (∀ a ∈ (executeSellWithRetryModel outcome).attempts,
      a.slippageMultiplier = slippageMultiplierFor a.attemptNumber ∧
      (a.attemptNumber = 1 → a.slippageMultiplier = 98 / 100) ∧
      (a.attemptNumber = 2 → a.slippageMultiplier = 95 / 100) ∧
      (a.attemptNumber = 3 → a.slippageMultiplier = 9 / 10)) ∧
    List.Chain' (fun x y => y.slippageMultiplier ≤ x.slippageMultiplier)
      (executeSellWithRetryModel outcome).attempts ∧
    (∀ a ∈ (executeSellWithRetryModel outcome).attempts, ∀ b,
      a.backoffAfterMs = some b →
      ((a.outcome = .sendFailure ∨ a.outcome = .confirmationError ∨
          a.outcome = .thrownException) ∧ b = a.attemptNumber * 2000) ∨
      (∃ c, a.outcome = .onChainRejection c ∧ retryableSellError c = true ∧
          b = a.attemptNumber * 3000)) ∧
    (∀ a ∈ (executeSellWithRetryModel outcome).attempts, ∀ c,
      a.outcome = .onChainRejection c → retryableSellError c = false →
      a.backoffAfterMs = none ∧
      (executeSellWithRetryModel outcome).circuitBreakerTripped = true) ∧
    (∀ a, (executeSellWithRetryModel outcome).attempts.getLast? = some a →
      a.attemptNumber = 3 →
      (a.outcome = .sendFailure ∨ (∃ c, a.outcome = .onChainRejection c) ∨
        a.outcome = .thrownException) →
      (executeSellWithRetryModel outcome).circuitBreakerTripped = true) := by
  refine ⟨sellRetryGo_length outcome 3 2, ?_, ?_, ?_, ?_, ?_, ?_⟩
  · exact sellRetryGo_attemptNumbers outcome 3 2 (by omega)
  · intro a ha
    have hm := sellRetryGo_mult outcome 3 2 a ha
    refine ⟨hm, ?_, ?_, ?_⟩
    · intro h1; rw [hm, h1]; rfl
    · intro h2; rw [hm, h2]; rfl
    · intro h3; rw [hm, h3]; rfl
  · exact sellRetryGo_chain outcome 3 2 (by omega)
  · exact sellRetryGo_backoff outcome 3 2
  · exact sellRetryGo_nonretryable outcome 3 2
  · exact sellRetryGo_exhaust outcome 3 2 (by omega)

/-- A concrete run: send failure on attempt 1, retryable on-chain
rejection (code 6003) on attempt 2, success on attempt 3. -/
def sellRetryExampleOutcome : Nat → SellAttemptOutcome :=
  fun n => if n = 1 then .sendFailure
    else if n = 2 then .onChainRejection 6003
    else .confirmedSuccess

theorem sell_retry_policy_witness :
    (executeSellWithRetryModel sellRetryExampleOutcome).attempts.length ≤ 3 ∧
    List.Chain' (fun x y => y.slippageMultiplier ≤ x.slippageMultiplier)
      (executeSellWithRetryModel sellRetryExampleOutcome).attempts :=
  ⟨(sell_retry_policy sellRetryExampleOutcome).1,
   (sell_retry_policy sellRetryExampleOutcome).2.2.2.1⟩

end FreshSniper

namespace FreshSniper

/-!
Ordering of sell dispatch — `executeSell` (ARCHITECTURE-REVIEW.md lines
3829-3851) and the `finally` block of `executeSellWithRetry` (lines
3821-3825).  The control flow of a dispatched sell is abstracted into an
event trace: `clearTimers` is performed synchronously by `executeSell`
before awaiting the retry routine; each attempt emits `attemptStart`,
then (unless it fails preflight or throws before sending) `awaitSend`
— the first suspension on the network send — and `awaitConfirmation`;
`removeUnsoldMarker` is the `confirmedUnsoldTransactions.delete` executed
only on a confirmed sell (lines 3649-3656); `deletePositionEntry` is the
`activePositions.delete(mintStr)` of the `finally` block, which runs when
`attemptNumber` is 1 or `maxAttempts`, after the awaited attempt chain
returns.
-/

inductive SellEvent
  | clearTimers
  | attemptStart (n : Nat)
  | awaitSend (n : Nat)
  | awaitConfirmation (n : Nat)
  | removeUnsoldMarker
  | deletePositionEntry
  deriving DecidableEq

/-- Event trace of the attempt chain of `executeSellWithRetry`, indexed
like `sellRetryGo` by the number of retries still allowed. -/
def sellTraceGo (o : Nat → SellAttemptOutcome) (m : Nat) : Nat → List SellEvent
  | 0 =>
    let n := m
    let fin := if n = 1 ∨ n = m then [SellEvent.deletePositionEntry] else []
    (match o n with
     | .preflightFailure => [.attemptStart n]
     | .sendFailure => [.attemptStart n, .awaitSend n]
     | .statusPending => [.attemptStart n, .awaitSend n, .awaitConfirmation n]
     | .unknownStatus => [.attemptStart n, .awaitSend n, .awaitConfirmation n]
     | .onChainRejection _ => [.attemptStart n, .awaitSend n, .awaitConfirmation n]
     | .confirmationError => [.attemptStart n, .awaitSend n, .awaitConfirmation n]
     | .thrownException => [.attemptStart n]
     | .confirmedSuccess =>
       [.attemptStart n, .awaitSend n, .awaitConfirmation n, .removeUnsoldMarker]) ++ fin
  | rem + 1 =>
    let n := m - (rem + 1)
    let fin := if n = 1 ∨ n = m then [SellEvent.deletePositionEntry] else []
    let rest := sellTraceGo o m rem
    (match o n with
     | .preflightFailure => [.attemptStart n]
     | .sendFailure => [.attemptStart n, .awaitSend n] ++ rest
     | .statusPending => [.attemptStart n, .awaitSend n, .awaitConfirmation n]
     | .unknownStatus => [.attemptStart n, .awaitSend n, .awaitConfirmation n]
     | .onChainRejection code =>
       if retryableSellError code then
         [.attemptStart n, .awaitSend n, .awaitConfirmation n] ++ rest
       else [.attemptStart n, .awaitSend n, .awaitConfirmation n]
     | .confirmationError =>
       [.attemptStart n, .awaitSend n, .awaitConfirmation n] ++ rest
     | .thrownException => [.attemptStart n] ++ rest
     | .confirmedSuccess =>
       [.attemptStart n, .awaitSend n, .awaitConfirmation n, .removeUnsoldMarker]) ++ fin

/-- Full trace of a sell dispatch through `executeSell` with the default
`attemptNumber = 1`, `maxAttempts = 3`. -/
def executeSellTrace (o : Nat → SellAttemptOutcome) : List SellEvent :=
  SellEvent.clearTimers :: sellTraceGo o 3 2

/-- A trace whose `deletePositionEntry` events form a (possibly empty)
suffix, with none occurring earlier; the bound `1 ≤ k` is forced whenever
the finally-condition of the chain's first attempt holds. -/
theorem sellTraceGo_shape (o : Nat → SellAttemptOutcome) (m : Nat) :
    ∀ rem, ∃ pure k,
      sellTraceGo o m rem =
        pure ++ List.replicate k SellEvent.deletePositionEntry ∧
      SellEvent.deletePositionEntry ∉ pure ∧
      ((m - rem = 1 ∨ m - rem = m) → 1 ≤ k) := by
  intro rem
  induction rem with
  | zero =>
    cases h : o m
    case preflightFailure =>
      exact ⟨[.attemptStart m], 1, by simp [sellTraceGo, h], by simp,
        fun _ => le_refl 1⟩
    case sendFailure =>
      exact ⟨[.attemptStart m, .awaitSend m], 1, by simp [sellTraceGo, h],
        by simp, fun _ => le_refl 1⟩
    case statusPending =>
      exact ⟨[.attemptStart m, .awaitSend m, .awaitConfirmation m], 1,
        by simp [sellTraceGo, h], by simp, fun _ => le_refl 1⟩
    case unknownStatus =>
      exact ⟨[.attemptStart m, .awaitSend m, .awaitConfirmation m], 1,
        by simp [sellTraceGo, h], by simp, fun _ => le_refl 1⟩
    case onChainRejection code =>
      exact ⟨[.attemptStart m, .awaitSend m, .awaitConfirmation m], 1,
        by simp [sellTraceGo, h], by simp, fun _ => le_refl 1⟩
    case confirmationError =>
      exact ⟨[.attemptStart m, .awaitSend m, .awaitConfirmation m], 1,
        by simp [sellTraceGo, h], by simp, fun _ => le_refl 1⟩
    case thrownException =>
      exact ⟨[.attemptStart m], 1, by simp [sellTraceGo, h], by simp,
        fun _ => le_refl 1⟩
    case confirmedSuccess =>
      exact ⟨[.attemptStart m, .awaitSend m, .awaitConfirmation m,
        .removeUnsoldMarker], 1, by simp [sellTraceGo, h], by simp,
        fun _ => le_refl 1⟩
  | succ rem ih =>
    obtain ⟨pureR, kR, hR, hpR, _⟩ := ih
    set n := m - (rem + 1) with hn
    by_cases hcond : (n = 1 ∨ n = m)
    · cases h : o n
      case pos.preflightFailure =>
        exact ⟨[.attemptStart n], 1,
          by simp [sellTraceGo, h, ← hn, hcond], by simp, fun _ => le_refl 1⟩
      case pos.statusPending =>
        exact ⟨[.attemptStart n, .awaitSend n, .awaitConfirmation n], 1,
          by simp [sellTraceGo, h, ← hn, hcond], by simp, fun _ => le_refl 1⟩
      case pos.unknownStatus =>
        exact ⟨[.attemptStart n, .awaitSend n, .awaitConfirmation n], 1,
          by simp [sellTraceGo, h, ← hn, hcond], by simp, fun _ => le_refl 1⟩
      case pos.confirmedSuccess =>
        exact ⟨[.attemptStart n, .awaitSend n, .awaitConfirmation n,
          .removeUnsoldMarker], 1,
          by simp [sellTraceGo, h, ← hn, hcond], by simp, fun _ => le_refl 1⟩
      case pos.sendFailure =>
        refine ⟨[.attemptStart n, .awaitSend n] ++ pureR, kR + 1, ?_,
          by simp [hpR], fun _ => Nat.le_add_left 1 kR⟩
        simp [sellTraceGo, h, ← hn, hcond, hR, List.replicate_succ' kR]
      case pos.confirmationError =>
        refine ⟨[.attemptStart n, .awaitSend n, .awaitConfirmation n] ++ pureR,
          kR + 1, ?_, by simp [hpR], fun _ => Nat.le_add_left 1 kR⟩
        simp [sellTraceGo, h, ← hn, hcond, hR, List.replicate_succ' kR]
      case pos.thrownException =>
        refine ⟨[.attemptStart n] ++ pureR, kR + 1, ?_,
          by simp [hpR], fun _ => Nat.le_add_left 1 kR⟩
        simp [sellTraceGo, h, ← hn, hcond, hR, List.replicate_succ' kR]
      case pos.onChainRejection code =>
        by_cases hcode : retryableSellError code
        · refine ⟨[.attemptStart n, .awaitSend n, .awaitConfirmation n] ++ pureR,
            kR + 1, ?_, by simp [hpR], fun _ => Nat.le_add_left 1 kR⟩
          simp [sellTraceGo, h, ← hn, hcond, hcode, hR, List.replicate_succ' kR]
        · exact ⟨[.attemptStart n, .awaitSend n, .awaitConfirmation n], 1,
            by simp [sellTraceGo, h, ← hn, hcond, hcode], by simp,
            fun _ => le_refl 1⟩
    · cases h : o n
      case neg.preflightFailure =>
        exact ⟨[.attemptStart n], 0,
          by simp [sellTraceGo, h, ← hn, hcond], by simp,
          fun hc => absurd hc hcond⟩
      case neg.statusPending =>
        exact ⟨[.attemptStart n, .awaitSend n, .awaitConfirmation n], 0,
          by simp [sellTraceGo, h, ← hn, hcond], by simp,
          fun hc => absurd hc hcond⟩
      case neg.unknownStatus =>
        exact ⟨[.attemptStart n, .awaitSend n, .awaitConfirmation n], 0,
          by simp [sellTraceGo, h, ← hn, hcond], by simp,
          fun hc => absurd hc hcond⟩
      case neg.confirmedSuccess =>
        exact ⟨[.attemptStart n, .awaitSend n, .awaitConfirmation n,
          .removeUnsoldMarker], 0,
          by simp [sellTraceGo, h, ← hn, hcond], by simp,
          fun hc => absurd hc hcond⟩
      case neg.sendFailure =>
        refine ⟨[.attemptStart n, .awaitSend n] ++ pureR, kR, ?_,
          by simp [hpR], fun hc => absurd hc hcond⟩
        simp [sellTraceGo, h, ← hn, hcond, hR]
      case neg.confirmationError =>
        refine ⟨[.attemptStart n, .awaitSend n, .awaitConfirmation n] ++ pureR,
          kR, ?_, by simp [hpR], fun hc => absurd hc hcond⟩
        simp [sellTraceGo, h, ← hn, hcond, hR]
      case neg.thrownException =>
        refine ⟨[.attemptStart n] ++ pureR, kR, ?_,
          by simp [hpR], fun hc => absurd hc hcond⟩
        simp [sellTraceGo, h, ← hn, hcond, hR]
      case neg.onChainRejection code =>
        by_cases hcode : retryableSellError code
        · refine ⟨[.attemptStart n, .awaitSend n, .awaitConfirmation n] ++ pureR,
            kR, ?_, by simp [hpR], fun hc => absurd hc hcond⟩
          simp [sellTraceGo, h, ← hn, hcond, hcode, hR]
        · exact ⟨[.attemptStart n, .awaitSend n, .awaitConfirmation n], 0,
            by simp [sellTraceGo, h, ← hn, hcond, hcode], by simp,
            fun hc => absurd hc hcond⟩

end FreshSniper

namespace FreshSniper

/-- Claim C7 counterexample: for a sell that succeeds on its first attempt,
the position's map entry (`deletePositionEntry`, the finally block) and the
unsold marker (`removeUnsoldMarker`, executed on confirmation) both occur
strictly after the send and its confirmation are awaited — not
synchronously at dispatch time before the send, as the claim states. -/
theorem sell_dispatch_removal_counterexample :
    (executeSellTrace (fun _ => .confirmedSuccess)).indexOf
        (.awaitSend 1) <
      (executeSellTrace (fun _ => .confirmedSuccess)).indexOf
        .deletePositionEntry ∧
    (executeSellTrace (fun _ => .confirmedSuccess)).indexOf
        (.awaitConfirmation 1) <
      (executeSellTrace (fun _ => .confirmedSuccess)).indexOf
        .deletePositionEntry ∧
    (executeSellTrace (fun _ => .confirmedSuccess)).indexOf
        (.awaitSend 1) <
      (executeSellTrace (fun _ => .confirmedSuccess)).indexOf
        .removeUnsoldMarker ∧
    SellEvent.awaitSend 1 ∈ executeSellTrace (fun _ => .confirmedSuccess) ∧
    SellEvent.deletePositionEntry ∈ executeSellTrace (fun _ => .confirmedSuccess) := by
  decide

/-- Claim C7 as amended: dispatching a sell synchronously clears the
position's timers (the trace starts with `clearTimers`), but the position's
map entry is removed only by the `finally` block after the awaited attempt
chain completes: every trace consists of a prefix free of
`deletePositionEntry` (containing all sends, confirmations, and the
unsold-marker removal on confirmed sell) followed by a non-empty block of
`deletePositionEntry` events at the very end. -/
theorem sell_dispatch_removal_amended (o : Nat → SellAttemptOutcome) :
    (executeSellTrace o).head? = some .clearTimers ∧
    ∃ pure k, executeSellTrace o =
        .clearTimers :: (pure ++ List.replicate k SellEvent.deletePositionEntry) ∧
      SellEvent.deletePositionEntry ∉ pure ∧ 1 ≤ k := by
  refine ⟨rfl, ?_⟩
  obtain ⟨pure, k, heq, hmem, hk⟩ := sellTraceGo_shape o 3 2
  exact ⟨pure, k, by rw [executeSellTrace, heq], hmem, hk (Or.inl rfl)⟩

theorem sell_dispatch_removal_amended_witness :
    (executeSellTrace (fun _ => .sendFailure)).head? = some .clearTimers :=
  (sell_dispatch_removal_amended (fun _ => .sendFailure)).1

end FreshSniper

namespace FreshSniper

/-!
PendingSubmission tracking — the `pendingBuys` map and its three
resolution paths (ARCHITECTURE-REVIEW.md): the stream signature match
(lines 4015-4017), the one-shot 10-second manual status poll
(lines 4444-4536) and the periodic stale-submission sweep
(lines 4617-4639); entries are created by `pendingBuys.set` at buy
dispatch (lines 4429-4436).  The map is an association list; signatures
and mints are symbolic naturals; `Date.now()` is carried on events.
-/

structure PendingBuy where
  mintStr : Nat
  timestamp : ℤ
  sellTimeoutMs : Nat
  deriving DecidableEq

/-- The `pendingBuys` map. -/
abbrev PendingMap := List (Nat × PendingBuy)

/-- `pendingBuys.get(sig)`. -/
def pendingLookup (st : PendingMap) (sig : Nat) : Option PendingBuy :=
  match st with
  | [] => none
  | (s, p) :: rest => if s = sig then some p else pendingLookup rest sig

/-- `pendingBuys.delete(sig)`: removes the entry for the key. -/
def pendingDelete : PendingMap → Nat → PendingMap
  | [], _ => []
  | e :: rest, sig =>
    if e.1 = sig then pendingDelete rest sig else e :: pendingDelete rest sig

/-- `PENDING_TIMEOUT_MS` (line 4619). -/
def PENDING_TIMEOUT_MS : ℤ := 60000

inductive PendingEvent
  | dispatch (sig : Nat) (info : PendingBuy)
  | streamTx (sig : Nat)
  | manualPoll (sig : Nat) (statusKnown : Bool)
  | sweep (now : ℤ)

/-- Which path resolved (removed) which pending signature. -/
inductive Resolution
  | streamMatch (sig : Nat)
  | manualStatus (sig : Nat)
  | sweepTimeout (sig : Nat)
  deriving DecidableEq

def Resolution.sig : Resolution → Nat
  | .streamMatch s => s
  | .manualStatus s => s
  | .sweepTimeout s => s

/-- Entries surviving the stale sweep: those not older than
`PENDING_TIMEOUT_MS` (lines 4621-4631). -/
def sweepKeep (now : ℤ) : PendingMap → PendingMap
  | [] => []
  | e :: rest =>
    if now - e.2.timestamp > PENDING_TIMEOUT_MS then sweepKeep now rest
    else e :: sweepKeep now rest

/-- Entries the stale sweep deletes and marks failed. -/
def sweepResolved (now : ℤ) : PendingMap → List Resolution
  | [] => []
  | e :: rest =>
    if now - e.2.timestamp > PENDING_TIMEOUT_MS then
      .sweepTimeout e.1 :: sweepResolved now rest
    else sweepResolved now rest

/-- One event against the pending map.  `streamTx` checks
`pendingBuys.has(signature)` and deletes on a hit; `manualPoll` fires only
when the signature is still pending and deletes only once a status is
known (the post-`await` re-check `if (!pending) return` makes a vanished
entry a no-op); the sweep deletes every entry older than
`PENDING_TIMEOUT_MS`.  `dispatch` is `pendingBuys.set`. -/
def applyPendingEvent (st : PendingMap) : PendingEvent → PendingMap × List Resolution
  | .dispatch sig info => ((sig, info) :: pendingDelete st sig, [])
  | .streamTx sig =>
    match pendingLookup st sig with
    | some _ => (pendingDelete st sig, [.streamMatch sig])
    | none => (st, [])
  | .manualPoll sig statusKnown =>
    match pendingLookup st sig with
    | some _ =>
      if statusKnown then (pendingDelete st sig, [.manualStatus sig])
      else (st, [])
    | none => (st, [])
  | .sweep now => (sweepKeep now st, sweepResolved now st)

def runPending : PendingMap → List PendingEvent → PendingMap × List Resolution
  | st, [] => (st, [])
  | st, e :: es =>
    let step := applyPendingEvent st e
    let rest := runPending step.1 es
    (rest.1, step.2 ++ rest.2)

/-- Number of resolutions recorded for a signature. -/
def resCount : List Resolution → Nat → Nat
  | [], _ => 0
  | r :: rs, sig => (if r.sig = sig then 1 else 0) + resCount rs sig

/-- Number of map entries carrying a signature. -/
def keyCount : PendingMap → Nat → Nat
  | [], _ => 0
  | e :: rest, sig => (if e.1 = sig then 1 else 0) + keyCount rest sig

/-- Number of dispatches of a signature in an event list. -/
def dispatchCount : List PendingEvent → Nat → Nat
  | [], _ => 0
  | PendingEvent.dispatch s _ :: es, sig =>
    (if s = sig then 1 else 0) + dispatchCount es sig
  | _ :: es, sig => dispatchCount es sig

theorem resCount_append (rs₁ rs₂ : List Resolution) (sig : Nat) :
    resCount (rs₁ ++ rs₂) sig = resCount rs₁ sig + resCount rs₂ sig := by
  induction rs₁ with
  | nil => simp [resCount]
  | cons r rs ih => simp [resCount, ih]; omega

theorem keyCount_pendingDelete_self (st : PendingMap) (sig : Nat) :
    keyCount (pendingDelete st sig) sig = 0 := by
  induction st with
  | nil => rfl
  | cons e rest ih =>
    by_cases h : e.1 = sig <;> simp [pendingDelete, keyCount, h, ih]

theorem keyCount_pendingDelete_other (st : PendingMap) (s sig : Nat)
    (h : s ≠ sig) : keyCount (pendingDelete st s) sig = keyCount st sig := by
  induction st with
  | nil => rfl
  | cons e rest ih =>
    by_cases he : e.1 = s
    · have hne : ¬ (e.1 = sig) := by rw [he]; exact h
      simp [pendingDelete, keyCount, he, hne, ih, h]
    · simp [pendingDelete, keyCount, he, ih]

theorem pendingLookup_none_iff (st : PendingMap) (sig : Nat) :
    pendingLookup st sig = none ↔ keyCount st sig = 0 := by
  induction st with
  | nil => simp [pendingLookup, keyCount]
  | cons e rest ih =>
    cases e with
    | mk s p =>
      by_cases h : s = sig
      · simp [pendingLookup, keyCount, h]
      · simp [pendingLookup, keyCount, h, ih]

end FreshSniper

namespace FreshSniper

theorem runPending_cons (st : PendingMap) (e : PendingEvent) (es : List PendingEvent) :
    runPending st (e :: es) =
      ((runPending (applyPendingEvent st e).1 es).1,
       (applyPendingEvent st e).2 ++ (runPending (applyPendingEvent st e).1 es).2) :=
  rfl

theorem keyCount_sweepKeep_le (now : ℤ) (st : PendingMap) (sig : Nat) :
    keyCount (sweepKeep now st) sig ≤ keyCount st sig := by
  induction st with
  | nil => simp [sweepKeep, keyCount]
  | cons e rest ih =>
    by_cases ht : now - e.2.timestamp > PENDING_TIMEOUT_MS <;>
      by_cases hs : e.1 = sig <;>
      simp [sweepKeep, keyCount, ht, hs] <;> omega

theorem sweep_accounting (st : PendingMap) (now : ℤ) (sig : Nat) :
    resCount (sweepResolved now st) sig + keyCount (sweepKeep now st) sig =
      keyCount st sig := by
  induction st with
  | nil => rfl
  | cons e rest ih =>
    by_cases ht : now - e.2.timestamp > PENDING_TIMEOUT_MS <;>
      by_cases hs : e.1 = sig <;>
      simp [sweepKeep, sweepResolved, keyCount, resCount, Resolution.sig, ht, hs] <;>
      omega

theorem pendingLookup_some_keyCount (st : PendingMap) (sig : Nat) (p : PendingBuy)
    (h : pendingLookup st sig = some p) : keyCount st sig ≠ 0 := by
  intro h0
  rw [← pendingLookup_none_iff] at h0
  rw [h] at h0
  cases h0

theorem runPending_accounting (sig : Nat) :
    ∀ (events : List PendingEvent) (st : PendingMap),
      keyCount st sig + dispatchCount events sig ≤ 1 →
      resCount (runPending st events).2 sig + keyCount (runPending st events).1 sig =
        keyCount st sig + dispatchCount events sig := by
  intro events
  induction events with
  | nil =>
    intro st h
    simp [runPending, resCount, dispatchCount]
  | cons e es ih =>
    intro st h
    rw [runPending_cons, resCount_append]
    dsimp only
    cases e with
    | dispatch s info =>
      have happ : applyPendingEvent st (PendingEvent.dispatch s info) =
          ((s, info) :: pendingDelete st s, []) := rfl
      rw [happ]
      dsimp only
      by_cases hs : s = sig
      · subst hs
        have hdc : dispatchCount (PendingEvent.dispatch s info :: es) s =
            1 + dispatchCount es s := by simp [dispatchCount]
        rw [hdc] at h ⊢
        have hk0 : keyCount st s = 0 := by omega
        have hk1 : keyCount ((s, info) :: pendingDelete st s) s = 1 := by
          simp [keyCount, keyCount_pendingDelete_self]
        have hrec := ih ((s, info) :: pendingDelete st s) (by rw [hk1]; omega)
        rw [hk1] at hrec
        simp only [resCount, Nat.zero_add]
        omega
      · have hdc : dispatchCount (PendingEvent.dispatch s info :: es) sig =
            dispatchCount es sig := by simp [dispatchCount, hs]
        rw [hdc] at h ⊢
        have hk : keyCount ((s, info) :: pendingDelete st s) sig = keyCount st sig := by
          simp [keyCount, hs, keyCount_pendingDelete_other st s sig hs]
        have hrec := ih ((s, info) :: pendingDelete st s) (by rw [hk]; omega)
        rw [hk] at hrec
        simp only [resCount, Nat.zero_add]
        omega
    | streamTx s =>
      have hdc : dispatchCount (PendingEvent.streamTx s :: es) sig =
          dispatchCount es sig := by simp [dispatchCount]
      rw [hdc] at h ⊢
      cases hl : pendingLookup st s with
      | none =>
        have happ : applyPendingEvent st (PendingEvent.streamTx s) = (st, []) := by
          simp [applyPendingEvent, hl]
        rw [happ]
        dsimp only
        simpa [resCount] using ih st h
      | some p =>
        have happ : applyPendingEvent st (PendingEvent.streamTx s) =
            (pendingDelete st s, [Resolution.streamMatch s]) := by
          simp [applyPendingEvent, hl]
        rw [happ]
        dsimp only
        by_cases hs : s = sig
        · subst hs
          have hk1 : keyCount st s = 1 := by
            have := pendingLookup_some_keyCount st s p hl
            omega
          have hk0 := keyCount_pendingDelete_self st s
          have hrec := ih (pendingDelete st s) (by rw [hk0]; omega)
          rw [hk0] at hrec
          simp [resCount, Resolution.sig]
          omega
        · have hk := keyCount_pendingDelete_other st s sig hs
          have hrec := ih (pendingDelete st s) (by rw [hk]; omega)
          rw [hk] at hrec
          simp only [resCount, Resolution.sig]
          rw [if_neg hs]
          omega
    | manualPoll s known =>
      have hdc : dispatchCount (PendingEvent.manualPoll s known :: es) sig =
          dispatchCount es sig := by simp [dispatchCount]
      rw [hdc] at h ⊢
      cases hl : pendingLookup st s with
      | none =>
        have happ : applyPendingEvent st (PendingEvent.manualPoll s known) =
            (st, []) := by
          simp [applyPendingEvent, hl]
        rw [happ]
        dsimp only
        simpa [resCount] using ih st h
      | some p =>
        cases known with
        | false =>
          have happ : applyPendingEvent st (PendingEvent.manualPoll s false) =
              (st, []) := by
            simp [applyPendingEvent, hl]
          rw [happ]
          dsimp only
          simpa [resCount] using ih st h
        | true =>
          have happ : applyPendingEvent st (PendingEvent.manualPoll s true) =
              (pendingDelete st s, [Resolution.manualStatus s]) := by
            simp [applyPendingEvent, hl]
          rw [happ]
          dsimp only
          by_cases hs : s = sig
          · subst hs
            have hk1 : keyCount st s = 1 := by
              have := pendingLookup_some_keyCount st s p hl
              omega
            have hk0 := keyCount_pendingDelete_self st s
            have hrec := ih (pendingDelete st s) (by rw [hk0]; omega)
            rw [hk0] at hrec
            simp [resCount, Resolution.sig]
            omega
          · have hk := keyCount_pendingDelete_other st s sig hs
            have hrec := ih (pendingDelete st s) (by rw [hk]; omega)
            rw [hk] at hrec
            simp only [resCount, Resolution.sig]
            rw [if_neg hs]
            omega
    | sweep now =>
      have hdc : dispatchCount (PendingEvent.sweep now :: es) sig =
          dispatchCount es sig := by simp [dispatchCount]
      rw [hdc] at h ⊢
      have happ : applyPendingEvent st (PendingEvent.sweep now) =
          (sweepKeep now st, sweepResolved now st) := rfl
      rw [happ]
      dsimp only
      have hsw := sweep_accounting st now sig
      have hle := keyCount_sweepKeep_le now st sig
      have hrec := ih (sweepKeep now st) (by omega)
      omega

end FreshSniper

namespace FreshSniper

/-- Claim C2: for a buy dispatched at most once (signatures are unique),
the three resolution paths — stream match, one-shot manual status poll,
stale sweep — remove its PendingSubmission exactly once: the number of
resolutions plus the surviving entry equals the number of dispatches, so
at most one path ever resolves it; once the entry is gone (whichever path
fired first removed it), the resolution count equals the dispatch count
exactly, and both the stream path and the manual poll are no-ops on a
signature that is no longer in the pending map. -/
theorem pending_submission_exactly_once (events : List PendingEvent) (sig : Nat)
    (h : dispatchCount events sig ≤ 1) :
    resCount (runPending [] events).2 sig + keyCount (runPending [] events).1 sig =
      dispatchCount events sig ∧
    resCount (runPending [] events).2 sig ≤ 1 ∧
    (keyCount (runPending [] events).1 sig = 0 →
      resCount (runPending [] events).2 sig = dispatchCount events sig) ∧
    (∀ st : PendingMap, pendingLookup st sig = none →
      applyPendingEvent st (.streamTx sig) = (st, []) ∧
      ∀ known, applyPendingEvent st (.manualPoll sig known) = (st, [])) := by
  have hacc := runPending_accounting sig events [] (by
    simpa [keyCount] using h)
  simp only [keyCount] at hacc
  rw [Nat.zero_add] at hacc
  refine ⟨hacc, by omega, fun h0 => by omega, ?_⟩
  intro st hl
  constructor
  · simp [applyPendingEvent, hl]
  · intro known
    cases known <;> simp [applyPendingEvent, hl]

/-- A dispatch resolved by the stream; the later manual poll and sweep
find nothing to do. -/
def pendingExampleEvents : List PendingEvent :=
  [.dispatch 5 ⟨9, 0, 60000⟩, .streamTx 5, .manualPoll 5 true, .sweep 100000]

theorem pending_submission_exactly_once_witness :
    resCount (runPending [] pendingExampleEvents).2 5 +
        keyCount (runPending [] pendingExampleEvents).1 5 =
      dispatchCount pendingExampleEvents 5 ∧
    resCount (runPending [] pendingExampleEvents).2 5 ≤ 1 :=
  ⟨(pending_submission_exactly_once pendingExampleEvents 5 (by decide)).1,
   (pending_submission_exactly_once pendingExampleEvents 5 (by decide)).2.1⟩

end FreshSniper

namespace FreshSniper

/-!
Buy admission control and the confirmed-unsold cap — the stream handler's
admission checks (ARCHITECTURE-REVIEW.md lines 4143-4165), `trackPosition`
which registers the unsold marker at dispatch time (lines 4313-4323 and
2513-2516), the confirmation paths which mark it confirmed (lines
4049-4055, 4385-4391, 4472-4478), the removal on confirmed sell (lines
3649-3656) and `cancelPositionTracking` (lines 2519-2544), plus the
test-surface `evaluateBuyReadinessForTest` (lines 2567-2617).  In this
variant `unconfirmedTransactions` is never written, so its size stays 0;
it is carried in the state for fidelity to the `size >= 2` check.
-/

def BUY_COOLDOWN_MS : ℤ := 60000

structure SniperState where
  lastBuyTime : ℤ
  processedTokens : List Nat
  unconfirmedCount : Nat
  /-- `confirmedUnsoldTransactions` entries as `(signature, confirmed?)`:
  created unconfirmed by `trackPosition` at dispatch, flipped on
  confirmation, removed on confirmed sell or cancellation. -/
  trackedUnsold : List (Nat × Bool)

/-- The stream handler's admission checks, in source order: already
processed, cooldown since last buy, unconfirmed-transaction cap (2),
confirmed-unsold cap (reject whenever any entry exists, i.e. cap 0). -/
def admitBuy (st : SniperState) (mint : Nat) (now : ℤ) : Bool :=
  !(st.processedTokens.contains mint) &&
  !(decide (now - st.lastBuyTime < BUY_COOLDOWN_MS)) &&
  !(decide (st.unconfirmedCount ≥ 2)) &&
  !(decide (st.trackedUnsold.length ≥ 1))

inductive SniperEvent
  | newTokenBuy (mint sig : Nat) (now : ℤ)
  | buyConfirmed (sig : Nat)
  | sellConcluded (sig : Nat)
  | buyCancelled (sig : Nat)

def applySniperEvent (st : SniperState) : SniperEvent → SniperState
  | .newTokenBuy mint sig now =>
    if admitBuy st mint now then
      { st with
        processedTokens := mint :: st.processedTokens
        lastBuyTime := now
        trackedUnsold := (sig, false) :: st.trackedUnsold }
    else st
  | .buyConfirmed sig =>
    { st with trackedUnsold :=
        (st.trackedUnsold.map (fun e => if e.1 = sig then (e.1, true) else e)) }
  | .sellConcluded sig =>
    { st with trackedUnsold :=
        (st.trackedUnsold.filter (fun e => decide (e.1 ≠ sig))) }
  | .buyCancelled sig =>
    { st with trackedUnsold :=
        (st.trackedUnsold.filter (fun e => decide (e.1 ≠ sig))) }

def initialSniperState : SniperState := ⟨0, [], 0, []⟩

def runSniper (events : List SniperEvent) : SniperState :=
  events.foldl applySniperEvent initialSniperState

/-- Confirmed positions whose sell has not been dispatched. -/
def confirmedUnsoldCount (st : SniperState) : Nat :=
  (st.trackedUnsold.filter (fun e => e.2)).length

inductive ReadinessReason
  | ok | circuit | processed | cooldown | pending | unconfirmed | unsold
  deriving DecidableEq

/-- `evaluateBuyReadinessForTest` (lines 2567-2617), reduced to its
decision: the checks run in source order and the first failing one names
the reason. -/
def evaluateBuyReadinessForTest (alreadyProcessed : Bool)
    (cooldownRemainingMs : ℤ) (unconfirmed confirmed pending : Nat)
    (circuitOpen : Bool) : Bool × ReadinessReason :=
  if circuitOpen then (false, .circuit)
  else if alreadyProcessed then (false, .processed)
  else if cooldownRemainingMs > 0 then (false, .cooldown)
  else if pending > 0 then (false, .pending)
  else if unconfirmed > 1 then (false, .unconfirmed)
  else if confirmed > 0 then (false, .unsold)
  else (true, .ok)

theorem applySniperEvent_tracked_le (st : SniperState) (e : SniperEvent)
    (h : st.trackedUnsold.length ≤ 1) :
    (applySniperEvent st e).trackedUnsold.length ≤ 1 := by
  cases e with
  | newTokenBuy mint sig now =>
    by_cases ha : admitBuy st mint now
    · have h0 : st.trackedUnsold.length = 0 := by
        have := ha
        simp only [admitBuy, Bool.and_eq_true, Bool.not_eq_true',
          decide_eq_false_iff_not] at this
        omega
      simp [applySniperEvent, ha, h0]
    · simp [applySniperEvent, ha, h]
  | buyConfirmed sig =>
    simpa [applySniperEvent] using h
  | sellConcluded sig =>
    simp only [applySniperEvent]
    exact le_trans (List.length_filter_le _ _) h
  | buyCancelled sig =>
    simp only [applySniperEvent]
    exact le_trans (List.length_filter_le _ _) h

theorem runSniper_aux_tracked_le (events : List SniperEvent) :
    ∀ st : SniperState, st.trackedUnsold.length ≤ 1 →
      (events.foldl applySniperEvent st).trackedUnsold.length ≤ 1 := by
  induction events with
  | nil => intro st h; simpa using h
  | cons e es ih =>
    intro st h
    simp only [List.foldl_cons]
    exact ih _ (applySniperEvent_tracked_le st e h)

end FreshSniper

namespace FreshSniper

/-- Claim C5: with the confirmed-unsold cap at 0 (the handler rejects a
new buy whenever any unsold entry exists), at most one unsold tracked
position — in particular at most one confirmed-unsold position — exists
after any sequence of buy/confirm/sell/cancel events, because any existing
unsold entry makes the admission check reject the next buy, and the
test-surface readiness evaluation likewise refuses to buy whenever a
confirmed-unsold position exists. -/
theorem confirmed_unsold_cap (events : List SniperEvent) :
    (runSniper events).trackedUnsold.length ≤ 1 ∧
    confirmedUnsoldCount (runSniper events) ≤ 1 ∧
    (∀ (st : SniperState) (mint : Nat) (now : ℤ),
      1 ≤ st.trackedUnsold.length → admitBuy st mint now = false) ∧
    (∀ (alreadyProcessed : Bool) (cooldownRemainingMs : ℤ)
        (unconfirmed confirmed pending : Nat) (circuitOpen : Bool),
      0 < confirmed →
      (evaluateBuyReadinessForTest alreadyProcessed cooldownRemainingMs
        unconfirmed confirmed pending circuitOpen).1 = false) := by
  have htracked := runSniper_aux_tracked_le events initialSniperState
    (by simp [initialSniperState])
  refine ⟨htracked, ?_, ?_, ?_⟩
  · exact le_trans (List.length_filter_le _ _) htracked
  · intro st mint now h1
    simp only [admitBuy, Bool.and_eq_false_iff]
    right
    simp [h1]
  · intro ap cd u c p co hc
    simp only [evaluateBuyReadinessForTest]
    split
    · rfl
    split
    · rfl
    split
    · rfl
    split
    · rfl
    split
    · rfl
    all_goals first
      | rfl
      | omega

theorem confirmed_unsold_cap_witness :
    (runSniper [.newTokenBuy 1 11 70000, .buyConfirmed 11,
        .newTokenBuy 2 12 140000]).trackedUnsold.length ≤ 1 ∧
    admitBuy ⟨70000, [1], 0, [(11, true)]⟩ 2 140000 = false :=
  ⟨(confirmed_unsold_cap [.newTokenBuy 1 11 70000, .buyConfirmed 11,
      .newTokenBuy 2 12 140000]).1,
   (confirmed_unsold_cap []).2.2.1 ⟨70000, [1], 0, [(11, true)]⟩ 2 140000
      (by decide)⟩

end FreshSniper

namespace FreshSniper

/-!
Buy token amount — `calculateTokensFromBondingCurveData`
(ARCHITECTURE-REVIEW.md lines 751-786) and the two buy builders' token
selection: variant A's `buildBuyTx` (lines 1030-1065) quotes the curve and
falls back to the static 35M-tokens-per-SOL estimate only when the quote
is unavailable, while variant B's `buildBuyTx` (lines 3005-3023) calls
`calculateDynamicSlippage` without using its result and always requests
the static estimate.  Curve account bytes are a `List Nat`; SOL amounts
are exact rationals; `Math.floor` is `Int.floor`.
-/

def LAMPORTS_PER_SOL : Nat := 1000000000

/-- `data.readBigUInt64LE(offset)`. -/
def readBigUInt64LE (data : List Nat) (offset : Nat) : Nat :=
  leVal ((data.drop offset).take 8)

/-- `BigInt(Math.max(1, Math.floor(buySol * LAMPORTS_PER_SOL)))`
(line 762). -/
def solToLamports (buySol : ℚ) : Nat :=
  max 1 (⌊buySol * (LAMPORTS_PER_SOL : ℚ)⌋.toNat)

/-- `calculateTokensFromBondingCurveData` (lines 751-786): parse the
virtual reserves at offsets 8 and 16, reject short or degenerate data,
quote `tokensOut = vTR − k/(vSR + buyLamports)` with `k = vTR × vSR`, and
subtract a 5% buffer (`tokensOut * 95n / 100n`). -/
def calculateTokensFromBondingCurveData (data : List Nat) (buySol : ℚ) :
    Option Nat :=
  if data.length < 24 then none
  else
    let virtualTokenReserves := readBigUInt64LE data 8
    let virtualSolReserves := readBigUInt64LE data 16
    let buyLamports := solToLamports buySol
    if virtualTokenReserves = 0 ∨ virtualSolReserves = 0 then none
    else
      let k := virtualTokenReserves * virtualSolReserves
      let newSolReserves := virtualSolReserves + buyLamports
      if newSolReserves = 0 then none
      else
        let newTokenReserves := k / newSolReserves
        if virtualTokenReserves ≤ newTokenReserves then none
        else
          let tokensOut := virtualTokenReserves - newTokenReserves
          if tokensOut = 0 then none
          else
            let buffered := tokensOut * 95 / 100
            if 0 < buffered then some buffered else none

/-- The static fallback estimate (lines 1057-1060 and 3011-3016):
`BigInt(Math.floor(buySol * 35_000_000) * 1_000_000)`. -/
def fallbackTokenAmount (buySol : ℚ) : Nat :=
  (⌊buySol * (35000000 : ℚ)⌋.toNat) * 1000000

/-- Variant A token selection (lines 1030-1065): curve quote when the
curve data yields one, static fallback otherwise. -/
def buyTokenAmountCurveAware (curveData : Option (List Nat)) (buySol : ℚ) : Nat :=
  match curveData with
  | some d =>
    match calculateTokensFromBondingCurveData d buySol with
    | some t => t
    | none => fallbackTokenAmount buySol
  | none => fallbackTokenAmount buySol

/-- Variant B token selection (lines 3005-3023): the static estimate is
always requested; available curve data only feeds a discarded
`calculateDynamicSlippage` call. -/
def buyTokenAmountStatic (curveData : Option (List Nat)) (buySol : ℚ) : Nat :=
  fallbackTokenAmount buySol

/-- Curve account bytes with `virtualTokenReserves = 10^12` and
`virtualSolReserves = 10^9`. -/
def exampleCurveData : List Nat :=
  List.replicate 8 0 ++ toLE8 1000000000000 ++ toLE8 1000000000

theorem solToLamports_example : solToLamports (3 / 1000) = 3000000 := by
  have h : ((3 : ℚ) / 1000) * ((LAMPORTS_PER_SOL : Nat) : ℚ) =
      ((3000000 : ℤ) : ℚ) := by
    norm_num [LAMPORTS_PER_SOL]
  simp only [solToLamports, h, Int.floor_intCast]
  rfl

theorem fallbackTokenAmount_example :
    fallbackTokenAmount (3 / 1000) = 105000000000 := by
  have h : ((3 : ℚ) / 1000) * (35000000 : ℚ) = ((105000 : ℤ) : ℚ) := by
    norm_num
  simp only [fallbackTokenAmount, h, Int.floor_intCast]
  rfl

theorem calculateTokens_example :
    calculateTokensFromBondingCurveData exampleCurveData (3 / 1000) =
      some 2841475574 := by
  simp only [calculateTokensFromBondingCurveData, solToLamports_example]
  decide

end FreshSniper

namespace FreshSniper

/-- Claim C8 counterexample: with live curve state available (and parsing
to a curve quote of 2 841 475 574 raw tokens for a 0.003 SOL buy), the buy
builder at lines 3005-3023 still requests the fallback estimate of
105 000 000 000 raw tokens — the fallback is not used only when curve
state is unavailable. -/
theorem buy_token_amount_counterexample :
    calculateTokensFromBondingCurveData exampleCurveData (3 / 1000) =
      some 2841475574 ∧
    buyTokenAmountStatic (some exampleCurveData) (3 / 1000) = 105000000000 ∧
    buyTokenAmountCurveAware (some exampleCurveData) (3 / 1000) = 2841475574 ∧
    (105000000000 : Nat) ≠ 2841475574 := by
  refine ⟨calculateTokens_example, ?_, ?_, by decide⟩
  · rw [buyTokenAmountStatic, fallbackTokenAmount_example]
  · rw [buyTokenAmountCurveAware, calculateTokens_example]

/-- Claim C8 as amended: in the curve-aware buy builder (variant A) the
requested token amount is computed from live constant-product curve state
— any successful quote satisfies
`t = (vTR − vTR*vSR/(vSR + buyLamports)) * 95 / 100`, i.e. the spec's
formula with the 5% safety buffer — and the fallback tokens-per-SOL
constant is used exactly when the curve quote is unavailable; the second
buy builder (variant B) requests the static fallback amount regardless of
curve state. -/
theorem buy_token_amount_policy (d : List Nat) (buySol : ℚ) :
    (∀ t, calculateTokensFromBondingCurveData d buySol = some t →
      24 ≤ d.length ∧
      readBigUInt64LE d 8 ≠ 0 ∧ readBigUInt64LE d 16 ≠ 0 ∧
      t = (readBigUInt64LE d 8 -
            readBigUInt64LE d 8 * readBigUInt64LE d 16 /
              (readBigUInt64LE d 16 + solToLamports buySol)) * 95 / 100 ∧
      0 < t) ∧
    (calculateTokensFromBondingCurveData d buySol = none →
      buyTokenAmountCurveAware (some d) buySol = fallbackTokenAmount buySol) ∧
    (∀ t, calculateTokensFromBondingCurveData d buySol = some t →
      buyTokenAmountCurveAware (some d) buySol = t) ∧
    buyTokenAmountCurveAware none buySol = fallbackTokenAmount buySol ∧
    buyTokenAmountStatic (some d) buySol = fallbackTokenAmount buySol := by
  refine ⟨?_, ?_, ?_, rfl, rfl⟩
  · intro t h
    simp only [calculateTokensFromBondingCurveData] at h
    split at h
    · cases h
    · split at h
      · cases h
      · split at h
        · cases h
        · split at h
          · cases h
          · split at h
            · cases h
            · split at h
              · injection h with h
                rename_i hlen hzero hsol hle htz hpos
                push_neg at hzero
                exact ⟨by omega, hzero.1, hzero.2, h.symm, h ▸ hpos⟩
              · cases h
  · intro h
    simp [buyTokenAmountCurveAware, h]
  · intro t h
    simp [buyTokenAmountCurveAware, h]

theorem buy_token_amount_policy_witness :
    buyTokenAmountCurveAware (some exampleCurveData) (3 / 1000) = 2841475574 ∧
    buyTokenAmountStatic (some exampleCurveData) (3 / 1000) =
      fallbackTokenAmount (3 / 1000) :=
  ⟨(buy_token_amount_policy exampleCurveData (3 / 1000)).2.2.1 2841475574
      calculateTokens_example,
   (buy_token_amount_policy exampleCurveData (3 / 1000)).2.2.2.2⟩

end FreshSniper
